import Mathlib

/-!
Shallow embedding of the portfolio-ledger engine
(`app/models/portfolio.py`, `app/utils/sql_utils.py`) of the
Stock-Trading repository, together with theorems settling the spec
claims about it.

The SQLite store is modelled as an explicit `DB` value: the `portfolio`
table is an association list keyed by `(user_id, symbol)` (the schema's
UNIQUE key) and the `transactions` table is an append-only list.  Prices
are exact rationals (`ℚ`); the price source `get_stock_price` is a
function `String → Option ℚ` returning the latest close price, `none`
when the fetch fails.  The `BEGIN TRANSACTION … commit / rollback` block
of `buy_stock` / `sell_stock` is modelled by a small step machine
(`runTx`) over a pending/committed pair, driven by an optional fault
index saying which step of the transaction raises.
-/

namespace StockTrading

/-- A row of the `portfolio` table (minus its key): `quantity` and
`average_price` columns. -/
structure Pos where
  quantity : Int
  average_price : ℚ
  deriving Repr, DecidableEq

/-- The UNIQUE key of the `portfolio` table: `(user_id, symbol)`. -/
abbrev Key := Nat × String

/-- A row of the `transactions` table. -/
structure Txn where
  id : Nat
  user_id : Nat
  symbol : String
  quantity : Int
  price : ℚ
  transaction_type : String
  timestamp : Nat
  deriving Repr, DecidableEq

/-- The durable store: the `portfolio` table and the `transactions`
table. -/
structure DB where
  portfolio : List (Key × Pos)
  transactions : List Txn
  deriving Repr, DecidableEq

/-- Errors raised by the engine, per the taxonomy of the spec:
`InvalidQuantity` models `ValueError("Quantity must be positive")`,
`PriceUnavailable` a failed price fetch, `InsufficientShares` the
`ValueError("Insufficient shares for sale")`, `StoreError` a failure
inside the store transaction (rolled back). -/
inductive TradeError where
  | InvalidQuantity
  | PriceUnavailable
  | InsufficientShares
  | StoreError
  deriving Repr, DecidableEq

/-- `SELECT quantity, average_price FROM portfolio WHERE user_id = ? AND
symbol = ?` on the association-list model: first row with the key. -/
def lookupPos : List (Key × Pos) → Key → Option Pos
  | [], _ => none
  | (k', p) :: rest, k => if k' = k then some p else lookupPos rest k

/-- Row lookup on the whole store. -/
def DB.getPos (db : DB) (k : Key) : Option Pos :=
  lookupPos db.portfolio k

/-- The upsert of `buy_stock` (portfolio.py lines 95-101):
`INSERT … ON CONFLICT(user_id, symbol) DO UPDATE SET
 quantity = quantity + ?,
 average_price = ((average_price * quantity + ? * ?) / (quantity + ?))`.
In SQLite's DO UPDATE clause the unqualified `quantity` and
`average_price` on the right-hand sides denote the existing row's
values, so the conflicting row is updated from its old values; a
non-conflicting insert appends the row `(quantity, price)`. -/
def upsertBuy : List (Key × Pos) → Key → Int → ℚ → List (Key × Pos)
  | [], k, q, price => [(k, ⟨q, price⟩)]
  | (k', p) :: rest, k, q, price =>
    if k' = k then
      (k', ⟨p.quantity + q,
            (p.average_price * (p.quantity : ℚ) + price * (q : ℚ)) /
              ((p.quantity : ℚ) + (q : ℚ))⟩) :: rest
    else (k', p) :: upsertBuy rest k q price

/-- The single-position view of the buy upsert: what the conflicting
(or fresh) row becomes.  `none` is the no-row case of the INSERT;
`some p` the DO UPDATE case. -/
def buyPos : Option Pos → Int → ℚ → Pos
  | none, q, price => ⟨q, price⟩
  | some p, q, price =>
    ⟨p.quantity + q,
     (p.average_price * (p.quantity : ℚ) + price * (q : ℚ)) /
       ((p.quantity : ℚ) + (q : ℚ))⟩

/-- The sell update (portfolio.py lines 169-173):
`UPDATE portfolio SET quantity = quantity - ? WHERE user_id = ? AND
symbol = ?` — unconditional decrement of every matching row; only the
`quantity` column is written. -/
def updateSellQty : List (Key × Pos) → Key → Int → List (Key × Pos)
  | [], _, _ => []
  | (k', p) :: rest, k, q =>
    (k', if k' = k then ⟨p.quantity - q, p.average_price⟩ else p)
      :: updateSellQty rest k q

/-- The portfolio write of a buy, as a store mutation. -/
def applyBuyPortfolioWrite (user_id : Nat) (symbol : String)
    (quantity : Int) (price : ℚ) (db : DB) : DB :=
  { db with portfolio := upsertBuy db.portfolio (user_id, symbol) quantity price }

/-- The portfolio write of a sell, as a store mutation. -/
def applySellPortfolioWrite (user_id : Nat) (symbol : String)
    (quantity : Int) (db : DB) : DB :=
  { db with portfolio := updateSellQty db.portfolio (user_id, symbol) quantity }

/-- `INSERT INTO transactions …` with the AUTOINCREMENT id assigned at
insert time. -/
def applyInsertTxn (t : Txn) (db : DB) : DB :=
  { db with transactions :=
      db.transactions ++ [{ t with id := db.transactions.length + 1 }] }

/-- The `BUY` transaction row inserted by `buy_stock` (lines 104-108);
the id field is overwritten at insert. -/
def buyTxnRow (user_id : Nat) (symbol : String) (quantity : Int)
    (price : ℚ) (now : Nat) : Txn :=
  ⟨0, user_id, symbol, quantity, price, "BUY", now⟩

/-- The `SELL` transaction row inserted by `sell_stock` (lines 176-180). -/
def sellTxnRow (user_id : Nat) (symbol : String) (quantity : Int)
    (price : ℚ) (now : Nat) : Txn :=
  ⟨0, user_id, symbol, quantity, price, "SELL", now⟩

/-! ### The store-transaction step machine

`buy_stock` and `sell_stock` wrap their two writes in
`BEGIN TRANSACTION … conn.commit()` with `conn.rollback()` on any
exception.  We model the block as a list of writes run against a
pending copy of the store: a write mutates only the pending state,
`commit` publishes it, `rollback` discards it.  `failAt = some i` means
step `i` raises (steps `0, 1` are the two writes, step `2` the commit);
`none` means no failure. -/

/-- In-flight transaction state: the durable (visible) store and the
uncommitted pending store. -/
structure TxCtx where
  committed : DB
  pending : DB
  deriving Repr, DecidableEq

/-- `BEGIN TRANSACTION`: pending starts as a copy of the store. -/
def beginTx (db : DB) : TxCtx := ⟨db, db⟩

/-- A `cursor.execute` write: mutates only the pending state. -/
def applyWrite (w : DB → DB) (s : TxCtx) : TxCtx :=
  ⟨s.committed, w s.pending⟩

/-- `conn.commit()`: the pending state becomes durable. -/
def commitTx (s : TxCtx) : TxCtx := ⟨s.pending, s.pending⟩

/-- `conn.rollback()`: the pending state is discarded. -/
def rollbackTx (s : TxCtx) : TxCtx := ⟨s.committed, s.committed⟩

/-- Run the writes in order; a fault at index `i` raises there, and the
`except` handler rolls back.  Returns the final visible state and
whether the block committed. -/
def runTxGo (failAt : Option Nat) : Nat → List (DB → DB) → TxCtx → TxCtx × Bool
  | i, [], s =>
    if failAt = some i then (rollbackTx s, false) else (commitTx s, true)
  | i, w :: rest, s =>
    if failAt = some i then (rollbackTx s, false)
    else runTxGo failAt (i + 1) rest (applyWrite w s)

/-- The whole `with get_db_connection() … BEGIN TRANSACTION` block. -/
def runTx (writes : List (DB → DB)) (failAt : Option Nat) (db : DB) :
    DB × Bool :=
  let r := runTxGo failAt 0 writes (beginTx db)
  (r.1.committed, r.2)

/-- The two writes of the buy transaction block, in program order. -/
def buyWrites (user_id : Nat) (symbol : String) (quantity : Int)
    (price : ℚ) (now : Nat) : List (DB → DB) :=
  [applyBuyPortfolioWrite user_id symbol quantity price,
   applyInsertTxn (buyTxnRow user_id symbol quantity price now)]

/-- The two writes of the sell transaction block, in program order. -/
def sellWrites (user_id : Nat) (symbol : String) (quantity : Int)
    (price : ℚ) (now : Nat) : List (DB → DB) :=
  [applySellPortfolioWrite user_id symbol quantity,
   applyInsertTxn (sellTxnRow user_id symbol quantity price now)]

/-- The dict returned by a successful trade (id/timestamp fields
omitted; `total` is `total_cost` for a buy, `total_proceeds` for a
sell). -/
structure TradeResult where
  symbol : String
  quantity : Int
  price : ℚ
  total : ℚ
  deriving Repr, DecidableEq

/-- `PortfolioManager.buy_stock`.  Guard `quantity <= 0`; fetch the
price (`close`); run the two writes atomically; on success return the
new store and the result dict, on any failure the store is unchanged
and the exception propagates. -/
def buy_stock (priceSource : String → Option ℚ) (failAt : Option Nat)
    (db : DB) (user_id : Nat) (symbol : String) (quantity : Int)
    (now : Nat) : Except TradeError (DB × TradeResult) :=
  if quantity ≤ 0 then .error .InvalidQuantity
  else
    match priceSource symbol with
    | none => .error .PriceUnavailable
    | some price =>
      let r := runTx (buyWrites user_id symbol quantity price now) failAt db
      if r.2 then .ok (r.1, ⟨symbol, quantity, price, price * (quantity : ℚ)⟩)
      else .error .StoreError

/-- `PortfolioManager.sell_stock`.  Guard `quantity <= 0`; the
sufficiency check `if not result or result[0]['quantity'] < quantity`
reads the committed store in a separate query; then the price fetch;
then the two writes in the transaction block. -/
def sell_stock (priceSource : String → Option ℚ) (failAt : Option Nat)
    (db : DB) (user_id : Nat) (symbol : String) (quantity : Int)
    (now : Nat) : Except TradeError (DB × TradeResult) :=
  if quantity ≤ 0 then .error .InvalidQuantity
  else
    match db.getPos (user_id, symbol) with
    | none => .error .InsufficientShares
    | some p =>
      if p.quantity < quantity then .error .InsufficientShares
      else
        match priceSource symbol with
        | none => .error .PriceUnavailable
        | some price =>
          let r := runTx (sellWrites user_id symbol quantity price now) failAt db
          if r.2 then
            .ok (r.1, ⟨symbol, quantity, price, price * (quantity : ℚ)⟩)
          else .error .StoreError

/-! ### Read operations -/

/-- One entry of `get_portfolio`'s `holdings` list (portfolio.py
lines 47-54). -/
structure HoldingView where
  symbol : String
  quantity : Int
  average_price : ℚ
  current_price : ℚ
  total_value : ℚ
  gain_loss : ℚ
  deriving Repr, DecidableEq

/-- The dict returned by `get_portfolio`. -/
structure PortfolioView where
  holdings : List HoldingView
  total_value : ℚ
  deriving Repr, DecidableEq

/-- `SELECT symbol, quantity, average_price FROM portfolio WHERE
user_id = ? AND quantity > 0` (lines 31-36). -/
def userHoldings (db : DB) (user_id : Nat) : List (Key × Pos) :=
  db.portfolio.filter
    (fun r => decide (r.1.1 = user_id) && decide (0 < r.2.quantity))

/-- The valuation loop of `get_portfolio` (lines 44-56): for each
holding fetch the current close price — a failed fetch raises and
aborts the whole call — and build the holding view and the running
`total_value`. -/
def valuateHoldings (priceSource : String → Option ℚ) :
    List (Key × Pos) → Except TradeError (List HoldingView × ℚ)
  | [] => .ok ([], 0)
  | (k, p) :: rest =>
    match priceSource k.2 with
    | none => .error .PriceUnavailable
    | some cp =>
      match valuateHoldings priceSource rest with
      | .error e => .error e
      | .ok (hs, tv) =>
        let hv := (p.quantity : ℚ) * cp
        .ok (⟨k.2, p.quantity, p.average_price, cp, hv,
              hv - (p.quantity : ℚ) * p.average_price⟩ :: hs, hv + tv)

/-- `PortfolioManager.get_portfolio` (lines 17-62): read-only; fails
with the price error if any held symbol cannot be priced. -/
def get_portfolio (priceSource : String → Option ℚ) (db : DB)
    (user_id : Nat) : Except TradeError PortfolioView :=
  match valuateHoldings priceSource (userHoldings db user_id) with
  | .error e => .error e
  | .ok (hs, tv) => .ok ⟨hs, tv⟩

/-- One entry of `get_transaction_history`'s result (lines 222-230),
with the derived `total`. -/
structure TransactionView where
  transaction_id : Nat
  symbol : String
  quantity : Int
  price : ℚ
  transaction_type : String
  timestamp : Nat
  total : ℚ
  deriving Repr, DecidableEq

/-- `SELECT * FROM transactions WHERE user_id = ?`. -/
def userTransactions (db : DB) (user_id : Nat) : List Txn :=
  db.transactions.filter (fun t => decide (t.user_id = user_id))

/-- Insert a row into a timestamp-descending list, keeping it
descending. -/
def insertDesc (t : Txn) : List Txn → List Txn
  | [] => [t]
  | u :: us =>
    if u.timestamp ≤ t.timestamp then t :: u :: us else u :: insertDesc t us

/-- `ORDER BY timestamp DESC`: the rows sorted by timestamp,
most recent first. -/
def sortByTimestampDesc : List Txn → List Txn
  | [] => []
  | t :: ts => insertDesc t (sortByTimestampDesc ts)

/-- The view built for each row, with `total = price * quantity`
(line 229). -/
def toView (t : Txn) : TransactionView :=
  ⟨t.id, t.symbol, t.quantity, t.price, t.transaction_type, t.timestamp,
   t.price * (t.quantity : ℚ)⟩

/-- `PortfolioManager.get_transaction_history` (lines 203-234):
read-only. -/
def get_transaction_history (db : DB) (user_id : Nat) :
    List TransactionView :=
  (sortByTimestampDesc (userTransactions db user_id)).map toView

/-- `PortfolioManager.get_stock_info` (lines 236-259): a pure
read-through composition of three price-source calls; fails if any one
fails. -/
def get_stock_info (priceSource : String → Option ℚ) (symbol : String) :
    Except TradeError (ℚ × ℚ × ℚ) :=
  match priceSource symbol, priceSource symbol, priceSource symbol with
  | some a, some b, some c => .ok (a, b, c)
  | _, _, _ => .error .PriceUnavailable

/-! ### The engine as a state transformer -/

/-- One engine operation, with its arguments. -/
inductive Op where
  | buy (user_id : Nat) (symbol : String) (quantity : Int)
  | sell (user_id : Nat) (symbol : String) (quantity : Int)
  | portfolioOf (user_id : Nat)
  | historyOf (user_id : Nat)
  | infoOf (symbol : String)
  deriving Repr, DecidableEq

/-- The store state after one engine operation: a raised exception
leaves the store as it was (nothing was committed); the read
operations run only SELECTs and never write. -/
def stepDB (priceSource : String → Option ℚ) (failAt : Option Nat)
    (db : DB) (now : Nat) : Op → DB
  | .buy u s q =>
    match buy_stock priceSource failAt db u s q now with
    | .ok (db', _) => db'
    | .error _ => db
  | .sell u s q =>
    match sell_stock priceSource failAt db u s q now with
    | .ok (db', _) => db'
    | .error _ => db
  | .portfolioOf _ => db
  | .historyOf _ => db
  | .infoOf _ => db

/-! ### The sell race, step by step

`sell_stock` performs its sufficiency check with a stand-alone
`execute_query` on its own connection (lines 151-155), and only then
opens the write transaction whose `UPDATE` decrements unconditionally
(lines 169-173).  To talk about interleavings we expose the two halves
as separate atomic steps. -/

/-- The application-level check of lines 151-155: passes iff a row
exists and its quantity is at least the requested quantity. -/
def sellCheck (db : DB) (user_id : Nat) (symbol : String)
    (quantity : Int) : Bool :=
  match db.getPos (user_id, symbol) with
  | none => false
  | some p => decide (quantity ≤ p.quantity)

/-- The write transaction of lines 162-183 as one atomic step (both
writes, committed). -/
def sellApply (db : DB) (user_id : Nat) (symbol : String)
    (quantity : Int) (price : ℚ) (now : Nat) : DB :=
  applyInsertTxn (sellTxnRow user_id symbol quantity price now)
    (applySellPortfolioWrite user_id symbol quantity db)

/-- Two concurrent sells of the same `(user_id, symbol)` under the
schedule check₁ · check₂ · write₁ · write₂: each check reads the store
before either write commits; each passing sell then decrements
unconditionally.  Returns the final store and which sells succeeded. -/
def twoSellsRace (db : DB) (user_id : Nat) (symbol : String)
    (q1 q2 : Int) (price : ℚ) : DB × Bool × Bool :=
  let c1 := sellCheck db user_id symbol q1
  let c2 := sellCheck db user_id symbol q2
  let db1 := if c1 then sellApply db user_id symbol q1 price 1 else db
  let db2 := if c2 then sellApply db1 user_id symbol q2 price 2 else db1
  (db2, c1, c2)

/-- The spec's store invariant: no position row has a negative
quantity. -/
def nonnegQuantities (db : DB) : Prop :=
  ∀ r ∈ db.portfolio, 0 ≤ r.2.quantity

instance (db : DB) : Decidable (nonnegQuantities db) := by
  unfold nonnegQuantities; infer_instance

/-! ### Association-list lemmas -/

theorem lookupPos_upsertBuy_self (l : List (Key × Pos)) (k : Key) (q : Int)
    (price : ℚ) :
    lookupPos (upsertBuy l k q price) k = some (buyPos (lookupPos l k) q price) := by
  induction l with
  | nil => simp [upsertBuy, lookupPos, buyPos]
  | cons r rest ih =>
    obtain ⟨k', p⟩ := r
    by_cases h : k' = k
    · subst h
      simp [upsertBuy, lookupPos, buyPos]
    · simp only [upsertBuy, lookupPos, if_neg h]
      exact ih

theorem lookupPos_upsertBuy_other (l : List (Key × Pos)) (k k' : Key)
    (q : Int) (price : ℚ) (h : k' ≠ k) :
    lookupPos (upsertBuy l k q price) k' = lookupPos l k' := by
  induction l with
  | nil =>
    simp only [upsertBuy, lookupPos,
      if_neg (show ¬k = k' from fun e => h (Eq.symm e))]
  | cons r rest ih =>
    obtain ⟨k₀, p⟩ := r
    by_cases h0 : k₀ = k
    · subst h0
      simp only [upsertBuy, if_pos rfl, lookupPos,
        if_neg (show ¬k₀ = k' from fun e => h (Eq.symm e))]
    · simp only [upsertBuy, if_neg h0, lookupPos]
      by_cases h1 : k₀ = k'
      · simp [h1]
      · simp only [if_neg h1]
        exact ih

theorem lookupPos_updateSellQty_self (l : List (Key × Pos)) (k : Key)
    (q : Int) :
    lookupPos (updateSellQty l k q) k
      = (lookupPos l k).map (fun p => ⟨p.quantity - q, p.average_price⟩) := by
  induction l with
  | nil => simp [updateSellQty, lookupPos]
  | cons r rest ih =>
    obtain ⟨k₀, p⟩ := r
    by_cases h0 : k₀ = k
    · subst h0
      simp [updateSellQty, lookupPos]
    · simp only [updateSellQty, if_neg h0, lookupPos, if_neg h0]
      exact ih

theorem lookupPos_updateSellQty_other (l : List (Key × Pos)) (k k' : Key)
    (q : Int) (h : k' ≠ k) :
    lookupPos (updateSellQty l k q) k' = lookupPos l k' := by
  induction l with
  | nil => simp [updateSellQty, lookupPos]
  | cons r rest ih =>
    obtain ⟨k₀, p⟩ := r
    by_cases h1 : k₀ = k'
    · simp only [updateSellQty, lookupPos, if_pos h1]
      subst h1
      simp only [if_neg (show ¬k₀ = k from fun e => h (e ▸ rfl))]
    · simp only [updateSellQty, lookupPos, if_neg h1]
      exact ih

theorem lookupPos_eq_of_mem_of_nodup (l : List (Key × Pos))
    (hnd : (l.map Prod.fst).Nodup) (k : Key) (p : Pos)
    (hm : (k, p) ∈ l) : lookupPos l k = some p := by
  induction l with
  | nil => simp at hm
  | cons r rest ih =>
    obtain ⟨k₀, p₀⟩ := r
    simp only [List.map_cons, List.nodup_cons] at hnd
    rcases List.mem_cons.mp hm with h | h
    · injection h with h1 h2
      subst h1; subst h2
      simp [lookupPos]
    · by_cases h0 : k₀ = k
      · exfalso
        subst h0
        exact hnd.1 (List.mem_map.mpr ⟨(k₀, p), h, rfl⟩)
      · simp only [lookupPos, if_neg h0]
        exact ih hnd.2 h

/-! ### Transaction-machine lemmas -/

theorem runTx_two (w1 w2 : DB → DB) (failAt : Option Nat) (db : DB) :
    runTx [w1, w2] failAt db = (db, false) ∨
    runTx [w1, w2] failAt db = (w2 (w1 db), true) := by
  cases failAt with
  | none => right; rfl
  | some n =>
    match n with
    | 0 => left; rfl
    | 1 => left; rfl
    | 2 => left; rfl
    | (m + 3) => right; rfl

theorem runTx_two_none (w1 w2 : DB → DB) (db : DB) :
    runTx [w1, w2] none db = (w2 (w1 db), true) := rfl

theorem runTx_two_of_snd_true (w1 w2 : DB → DB) (failAt : Option Nat)
    (db : DB) (h : (runTx [w1, w2] failAt db).2 = true) :
    runTx [w1, w2] failAt db = (w2 (w1 db), true) := by
  rcases runTx_two w1 w2 failAt db with heq | heq
  · rw [heq] at h; simp at h
  · exact heq

/-! ### Success characterizations of the trades -/

theorem buy_stock_ok_elim (ps : String → Option ℚ) (failAt : Option Nat)
    (db : DB) (u : Nat) (s : String) (q : Int) (now : Nat) (db' : DB)
    (r : TradeResult)
    (hok : buy_stock ps failAt db u s q now = .ok (db', r)) :
    ∃ price, ps s = some price ∧ 0 < q ∧
      db' = applyInsertTxn (buyTxnRow u s q price now)
              (applyBuyPortfolioWrite u s q price db) ∧
      r = ⟨s, q, price, price * (q : ℚ)⟩ := by
  unfold buy_stock at hok
  split at hok
  · exact absurd hok (by simp)
  · rename_i hq
    cases hp : ps s with
    | none => rw [hp] at hok; exact absurd hok (by simp)
    | some price =>
      rw [hp] at hok
      simp only [buyWrites] at hok
      rcases runTx_two (applyBuyPortfolioWrite u s q price)
          (applyInsertTxn (buyTxnRow u s q price now)) failAt db with heq | heq
      · rw [heq] at hok; simp at hok
      · rw [heq] at hok
        simp only [if_pos rfl] at hok
        injection hok with h1
        injection h1 with h2 h3
        exact ⟨price, rfl, by omega, h2.symm, h3.symm⟩

theorem sell_stock_ok_elim (ps : String → Option ℚ) (failAt : Option Nat)
    (db : DB) (u : Nat) (s : String) (q : Int) (now : Nat) (db' : DB)
    (r : TradeResult)
    (hok : sell_stock ps failAt db u s q now = .ok (db', r)) :
    ∃ p price, 0 < q ∧ db.getPos (u, s) = some p ∧ q ≤ p.quantity ∧
      ps s = some price ∧
      db' = applyInsertTxn (sellTxnRow u s q price now)
              (applySellPortfolioWrite u s q db) ∧
      r = ⟨s, q, price, price * (q : ℚ)⟩ := by
  unfold sell_stock at hok
  split at hok
  · exact absurd hok (by simp)
  · rename_i hq
    cases hpos : db.getPos (u, s) with
    | none => rw [hpos] at hok; exact absurd hok (by simp)
    | some p =>
      rw [hpos] at hok
      simp only at hok
      split at hok
      · exact absurd hok (by simp)
      · rename_i hheld
        cases hp : ps s with
        | none => rw [hp] at hok; exact absurd hok (by simp)
        | some price =>
          rw [hp] at hok
          simp only [sellWrites] at hok
          rcases runTx_two (applySellPortfolioWrite u s q)
              (applyInsertTxn (sellTxnRow u s q price now)) failAt db with heq | heq
          · rw [heq] at hok; simp at hok
          · rw [heq] at hok
            simp only [if_pos rfl] at hok
            injection hok with h1
            injection h1 with h2 h3
            exact ⟨p, price, by omega, rfl, by omega, rfl, h2.symm, h3.symm⟩

/-! ### Effect of the individual writes on the store -/

theorem getPos_applyInsertTxn (t : Txn) (db : DB) (k : Key) :
    (applyInsertTxn t db).getPos k = db.getPos k := rfl

theorem getPos_applyBuyPortfolioWrite_self (u : Nat) (s : String) (q : Int)
    (price : ℚ) (db : DB) :
    (applyBuyPortfolioWrite u s q price db).getPos (u, s)
      = some (buyPos (db.getPos (u, s)) q price) :=
  lookupPos_upsertBuy_self db.portfolio (u, s) q price

theorem getPos_applySellPortfolioWrite_self (u : Nat) (s : String) (q : Int)
    (db : DB) :
    (applySellPortfolioWrite u s q db).getPos (u, s)
      = (db.getPos (u, s)).map (fun p => ⟨p.quantity - q, p.average_price⟩) :=
  lookupPos_updateSellQty_self db.portfolio (u, s) q

/-- The schema's `UNIQUE(user_id, symbol)` constraint on the
`portfolio` table. -/
def uniqueKeys (db : DB) : Prop :=
  (db.portfolio.map Prod.fst).Nodup

instance (db : DB) : Decidable (uniqueKeys db) := by
  unfold uniqueKeys; infer_instance

/-! ### Nonnegativity of quantities across the writes -/

theorem nonneg_upsertBuy (l : List (Key × Pos)) (k : Key) (q : Int)
    (price : ℚ) (hq : 0 < q) (h : ∀ r ∈ l, 0 ≤ r.2.quantity) :
    ∀ r ∈ upsertBuy l k q price, 0 ≤ r.2.quantity := by
  induction l with
  | nil =>
    intro r hr
    simp only [upsertBuy, List.mem_singleton] at hr
    subst hr
    show (0 : Int) ≤ q
    omega
  | cons r0 rest ih =>
    obtain ⟨k₀, p⟩ := r0
    intro r hr
    by_cases h0 : k₀ = k
    · subst h0
      simp only [upsertBuy] at hr
      rw [if_pos trivial] at hr
      rcases List.mem_cons.mp hr with hr | hr
      · subst hr
        have hp0 : (0 : Int) ≤ p.quantity := h (k₀, p) (by simp)
        show (0 : Int) ≤ p.quantity + q
        omega
      · exact h r (List.mem_cons_of_mem _ hr)
    · simp only [upsertBuy, if_neg h0, List.mem_cons] at hr
      rcases hr with hr | hr
      · subst hr
        exact h (k₀, p) (by simp)
      · exact ih (fun r' hr' => h r' (List.mem_cons_of_mem _ hr')) r hr

theorem updateSellQty_of_no_key (l : List (Key × Pos)) (k : Key) (q : Int)
    (h : ∀ r ∈ l, r.1 ≠ k) : updateSellQty l k q = l := by
  induction l with
  | nil => rfl
  | cons r0 rest ih =>
    obtain ⟨k₀, p₀⟩ := r0
    have h0 : k₀ ≠ k := h (k₀, p₀) (by simp)
    simp only [updateSellQty, if_neg h0]
    rw [ih (fun r' hr' => h r' (List.mem_cons_of_mem _ hr'))]

theorem nonneg_updateSellQty (l : List (Key × Pos)) (k : Key) (q : Int)
    (hnd : (l.map Prod.fst).Nodup) (p : Pos)
    (hlk : lookupPos l k = some p) (hql : q ≤ p.quantity)
    (h : ∀ r ∈ l, 0 ≤ r.2.quantity) :
    ∀ r ∈ updateSellQty l k q, 0 ≤ r.2.quantity := by
  induction l with
  | nil => intro r hr; simp [updateSellQty] at hr
  | cons r0 rest ih =>
    obtain ⟨k₀, p₀⟩ := r0
    simp only [List.map_cons, List.nodup_cons] at hnd
    intro r hr
    by_cases h0 : k₀ = k
    · subst h0
      rw [show lookupPos ((k₀, p₀) :: rest) k₀ = some p₀ by
        simp [lookupPos]] at hlk
      injection hlk with hlk
      subst hlk
      have hrest : ∀ r' ∈ rest, r'.1 ≠ k₀ := by
        intro r' hr' he
        exact hnd.1 (List.mem_map.mpr ⟨r', hr', he⟩)
      have heq : updateSellQty ((k₀, p₀) :: rest) k₀ q
          = (k₀, ⟨p₀.quantity - q, p₀.average_price⟩) :: rest := by
        simp only [updateSellQty]
        rw [if_pos trivial, updateSellQty_of_no_key rest k₀ q hrest]
      rw [heq] at hr
      rcases List.mem_cons.mp hr with hr | hr
      · subst hr
        show (0 : Int) ≤ p₀.quantity - q
        omega
      · exact h r (List.mem_cons_of_mem _ hr)
    · simp only [lookupPos, if_neg h0] at hlk
      simp only [updateSellQty, if_neg h0, List.mem_cons] at hr
      rcases hr with hr | hr
      · subst hr
        exact h (k₀, p₀) (by simp)
      · exact ih hnd.2 hlk (fun r' hr' => h r' (List.mem_cons_of_mem _ hr')) r hr

/-! ### Sorting lemmas for the history query -/

theorem insertDesc_perm (t : Txn) (l : List Txn) :
    (insertDesc t l).Perm (t :: l) := by
  induction l with
  | nil => simp [insertDesc]
  | cons u us ih =>
    by_cases h : u.timestamp ≤ t.timestamp
    · simp [insertDesc, h]
    · simp only [insertDesc, if_neg h]
      exact (ih.cons u).trans (List.Perm.swap t u us)

theorem sortByTimestampDesc_perm (l : List Txn) :
    (sortByTimestampDesc l).Perm l := by
  induction l with
  | nil => simp [sortByTimestampDesc]
  | cons t ts ih =>
    exact (insertDesc_perm t (sortByTimestampDesc ts)).trans (ih.cons t)

theorem insertDesc_pairwise (t : Txn) (l : List Txn)
    (h : List.Pairwise (fun a b => b.timestamp ≤ a.timestamp) l) :
    List.Pairwise (fun a b => b.timestamp ≤ a.timestamp) (insertDesc t l) := by
  induction l with
  | nil => simp [insertDesc]
  | cons u us ih =>
    rcases List.pairwise_cons.mp h with ⟨hu, hus⟩
    by_cases hle : u.timestamp ≤ t.timestamp
    · simp only [insertDesc, if_pos hle]
      refine List.pairwise_cons.mpr ⟨?_, h⟩
      intro b hb
      rcases List.mem_cons.mp hb with hb | hb
      · subst hb; exact hle
      · exact le_trans (hu b hb) hle
    · simp only [insertDesc, if_neg hle]
      refine List.pairwise_cons.mpr ⟨?_, ih hus⟩
      intro b hb
      have hb' := (insertDesc_perm t us).mem_iff.mp hb
      rcases List.mem_cons.mp hb' with hb' | hb'
      · subst hb'
        exact le_of_not_le hle
      · exact hu b hb'

theorem sortByTimestampDesc_pairwise (l : List Txn) :
    List.Pairwise (fun a b => b.timestamp ≤ a.timestamp)
      (sortByTimestampDesc l) := by
  induction l with
  | nil => simp [sortByTimestampDesc]
  | cons t ts ih => exact insertDesc_pairwise t (sortByTimestampDesc ts) ih

/-! ### Valuation lemmas -/

theorem valuateHoldings_all_some (ps : String → Option ℚ)
    (price : String → ℚ) (l : List (Key × Pos))
    (h : ∀ r ∈ l, ps r.1.2 = some (price r.1.2)) :
    valuateHoldings ps l
      = .ok (l.map (fun r =>
          ⟨r.1.2, r.2.quantity, r.2.average_price, price r.1.2,
           (r.2.quantity : ℚ) * price r.1.2,
           (r.2.quantity : ℚ) * price r.1.2
             - (r.2.quantity : ℚ) * r.2.average_price⟩),
         (l.map (fun r => (r.2.quantity : ℚ) * price r.1.2)).sum) := by
  induction l with
  | nil => simp [valuateHoldings]
  | cons r0 rest ih =>
    obtain ⟨k, p⟩ := r0
    have hhead : ps k.2 = some (price k.2) := h (k, p) (by simp)
    have htail := ih (fun r' hr' => h r' (List.mem_cons_of_mem _ hr'))
    simp [valuateHoldings, hhead, htail]

theorem valuateHoldings_fail (ps : String → Option ℚ)
    (l : List (Key × Pos)) (r : Key × Pos) (hm : r ∈ l)
    (h : ps r.1.2 = none) :
    valuateHoldings ps l = .error .PriceUnavailable := by
  induction l with
  | nil => simp at hm
  | cons r0 rest ih =>
    obtain ⟨k, p⟩ := r0
    rcases List.mem_cons.mp hm with hm0 | hm0
    · subst hm0
      simp [valuateHoldings, h]
    · cases hps : ps k.2 with
      | none => simp [valuateHoldings, hps]
      | some cp =>
        have := ih hm0
        simp [valuateHoldings, hps, this]

/-! ### Sequences of buys -/

/-- A sequence of buys of the same `(user_id, symbol)`, each executed at
its own resolved price, with no store faults; `none` if any buy fails. -/
def runBuys (u : Nat) (s : String) : List (Int × ℚ) → DB → Option DB
  | [], db => some db
  | (q, p) :: rest, db =>
    match buy_stock (fun _ => some p) none db u s q 0 with
    | .ok (db', _) => runBuys u s rest db'
    | .error _ => none

/-- Total quantity of a list of (quantity, price) buys. -/
def sumQ (l : List (Int × ℚ)) : Int := (l.map Prod.fst).sum

/-- Total cost (quantity · price summed) of a list of buys. -/
def sumQP (l : List (Int × ℚ)) : ℚ :=
  (l.map (fun x => (x.1 : ℚ) * x.2)).sum

theorem buy_stock_none_ok (db : DB) (u : Nat) (s : String) (q : Int)
    (price : ℚ) (now : Nat) (hq : 0 < q) :
    buy_stock (fun _ => some price) none db u s q now
      = .ok (applyInsertTxn (buyTxnRow u s q price now)
               (applyBuyPortfolioWrite u s q price db),
             ⟨s, q, price, price * (q : ℚ)⟩) := by
  unfold buy_stock
  rw [if_neg (by omega)]
  simp only [buyWrites]
  rw [show runTx [applyBuyPortfolioWrite u s q price,
        applyInsertTxn (buyTxnRow u s q price now)] none db
      = (applyInsertTxn (buyTxnRow u s q price now)
           (applyBuyPortfolioWrite u s q price db), true) from rfl]
  rfl

theorem sumQ_nonneg (l : List (Int × ℚ)) (h : ∀ x ∈ l, 0 < x.1) :
    0 ≤ sumQ l := by
  induction l with
  | nil => simp [sumQ]
  | cons x rest ih =>
    have hx := h x (by simp)
    have := ih (fun y hy => h y (List.mem_cons_of_mem _ hy))
    simp only [sumQ, List.map_cons, List.sum_cons] at *
    omega

theorem runBuys_pos (u : Nat) (s : String) (l : List (Int × ℚ)) :
    ∀ (db : DB) (pos : Pos),
      (∀ x ∈ l, 0 < x.1) → db.getPos (u, s) = some pos →
      0 < pos.quantity →
      ∃ db' pos', runBuys u s l db = some db' ∧
        db'.getPos (u, s) = some pos' ∧
        pos'.quantity = pos.quantity + sumQ l ∧
        pos'.average_price * (pos'.quantity : ℚ)
          = pos.average_price * (pos.quantity : ℚ) + sumQP l := by
  induction l with
  | nil =>
    intro db pos _ hpos _
    exact ⟨db, pos, rfl, hpos, by simp [sumQ], by simp [sumQP]⟩
  | cons x rest ih =>
    intro db pos hall hpos hq0
    obtain ⟨q, p⟩ := x
    have hq : 0 < q := hall (q, p) (by simp)
    have hstep := buy_stock_none_ok db u s q p 0 hq
    set db1 := applyInsertTxn (buyTxnRow u s q p 0)
        (applyBuyPortfolioWrite u s q p db) with hdb1
    have hpos1 : db1.getPos (u, s) = some (buyPos (some pos) q p) := by
      rw [hdb1, getPos_applyInsertTxn,
        getPos_applyBuyPortfolioWrite_self, hpos]
    have hq1 : 0 < (buyPos (some pos) q p).quantity := by
      show 0 < pos.quantity + q
      omega
    obtain ⟨db', pos', hrun, hpos', hqty, havg⟩ :=
      ih db1 (buyPos (some pos) q p)
        (fun y hy => hall y (List.mem_cons_of_mem _ hy)) hpos1 hq1
    refine ⟨db', pos', ?_, hpos', ?_, ?_⟩
    · simp only [runBuys, hstep]
      exact hrun
    · show pos'.quantity = pos.quantity + sumQ ((q, p) :: rest)
      have : (buyPos (some pos) q p).quantity = pos.quantity + q := rfl
      rw [hqty, this]
      simp only [sumQ, List.map_cons, List.sum_cons]
      omega
    · rw [havg]
      have hne : ((pos.quantity : ℚ) + (q : ℚ)) ≠ 0 := by
        have : (0 : ℚ) < (pos.quantity : ℚ) + (q : ℚ) := by
          exact_mod_cast (by omega : (0 : ℤ) < pos.quantity + q)
        exact ne_of_gt this
      have hbp : (buyPos (some pos) q p).average_price
            * ((buyPos (some pos) q p).quantity : ℚ)
          = pos.average_price * (pos.quantity : ℚ) + (q : ℚ) * p := by
        show ((pos.average_price * (pos.quantity : ℚ) + p * (q : ℚ)) /
            ((pos.quantity : ℚ) + (q : ℚ))) * ((pos.quantity + q : ℤ) : ℚ)
          = pos.average_price * (pos.quantity : ℚ) + (q : ℚ) * p
        push_cast
        rw [div_mul_cancel₀ _ hne]
        ring
      rw [hbp]
      simp only [sumQP, List.map_cons, List.sum_cons]
      ring

theorem runBuys_fresh (u : Nat) (s : String) (l : List (Int × ℚ))
    (db : DB) (hall : ∀ x ∈ l, 0 < x.1)
    (hnone : db.getPos (u, s) = none) (hne : l ≠ []) :
    ∃ db' pos', runBuys u s l db = some db' ∧
      db'.getPos (u, s) = some pos' ∧
      pos'.quantity = sumQ l ∧
      pos'.average_price = sumQP l / ((sumQ l : ℤ) : ℚ) := by
  obtain ⟨x, rest, rfl⟩ : ∃ x rest, l = x :: rest := by
    cases l with
    | nil => exact absurd rfl hne
    | cons x rest => exact ⟨x, rest, rfl⟩
  obtain ⟨q, p⟩ := x
  have hq : 0 < q := hall (q, p) (by simp)
  have hstep := buy_stock_none_ok db u s q p 0 hq
  set db1 := applyInsertTxn (buyTxnRow u s q p 0)
      (applyBuyPortfolioWrite u s q p db) with hdb1
  have hpos1 : db1.getPos (u, s) = some ⟨q, p⟩ := by
    rw [hdb1, getPos_applyInsertTxn,
      getPos_applyBuyPortfolioWrite_self, hnone]
    rfl
  obtain ⟨db', pos', hrun, hpos', hqty, havg⟩ :=
    runBuys_pos u s rest db1 ⟨q, p⟩
      (fun y hy => hall y (List.mem_cons_of_mem _ hy)) hpos1 hq
  have hqty' : pos'.quantity = sumQ ((q, p) :: rest) := by
    simp only [sumQ, List.map_cons, List.sum_cons] at *
    omega
  have hsumQ_pos : 0 < sumQ ((q, p) :: rest) := by
    have := sumQ_nonneg rest (fun y hy => hall y (List.mem_cons_of_mem _ hy))
    simp only [sumQ, List.map_cons, List.sum_cons] at *
    omega
  refine ⟨db', pos', ?_, hpos', hqty', ?_⟩
  · simp only [runBuys, hstep]
    exact hrun
  · have havg' : pos'.average_price * (pos'.quantity : ℚ)
        = sumQP ((q, p) :: rest) := by
      rw [havg]
      show (p : ℚ) * (q : ℚ) + sumQP rest = sumQP ((q, p) :: rest)
      simp only [sumQP, List.map_cons, List.sum_cons]
      ring
    have hcast : ((pos'.quantity : ℤ) : ℚ) ≠ 0 := by
      rw [hqty']
      exact_mod_cast ne_of_gt hsumQ_pos
    rw [eq_div_iff (by rw [← hqty']; exact hcast)]
    rw [← hqty']
    exact havg'

/-- Helper: a buy into a row with quantity 0 yields the trade's own
quantity and price. -/
theorem buyPos_zero (a price : ℚ) (q : Int) (hq : 0 < q) :
    buyPos (some ⟨0, a⟩) q price = ⟨q, price⟩ := by
  have hq0 : ((q : ℤ) : ℚ) ≠ 0 := by
    exact_mod_cast (by omega : (q : ℤ) ≠ 0)
  show Pos.mk (0 + q)
      ((a * (((0 : ℤ) : ℚ)) + price * (q : ℚ)) / ((((0 : ℤ) : ℚ)) + (q : ℚ)))
    = ⟨q, price⟩
  congr 1
  · omega
  · rw [Int.cast_zero, mul_zero, zero_add, zero_add,
      mul_div_cancel_right₀ price hq0]

/-! ## The claims -/

/-- C1: For every `buy(user_id, symbol, quantity)` with a positive
quantity and a resolved price: if no position row exists for
`(user_id, symbol)`, the resulting position is `(quantity, price)`; if a
row `(old_quantity, old_average_price)` exists, the resulting position
is `(old_quantity + quantity,
(old_average_price * old_quantity + price * quantity) /
(old_quantity + quantity))`; consequently, for every sequence of buys
starting from no position, the final `average_price` equals the
quantity-weighted average of all executed buy prices. -/
theorem C1_buy_upsert_weighted_average :
    (∀ (ps : String → Option ℚ) (failAt : Option Nat) (db : DB) (u : Nat)
       (s : String) (q : Int) (now : Nat) (db' : DB) (r : TradeResult)
       (price : ℚ), ps s = some price →
       buy_stock ps failAt db u s q now = .ok (db', r) →
       (db.getPos (u, s) = none → db'.getPos (u, s) = some ⟨q, price⟩) ∧
       (∀ p0, db.getPos (u, s) = some p0 →
          db'.getPos (u, s) = some ⟨p0.quantity + q,
            (p0.average_price * (p0.quantity : ℚ) + price * (q : ℚ)) /
              ((p0.quantity : ℚ) + (q : ℚ))⟩))
  ∧ (∀ (u : Nat) (s : String) (l : List (Int × ℚ)) (db : DB),
       (∀ x ∈ l, 0 < x.1) → db.getPos (u, s) = none → l ≠ [] →
       ∃ db' pos', runBuys u s l db = some db' ∧
         db'.getPos (u, s) = some pos' ∧
         pos'.quantity = sumQ l ∧
         pos'.average_price = sumQP l / ((sumQ l : ℤ) : ℚ)) := by
  constructor
  · intro ps failAt db u s q now db' r price hp hok
    obtain ⟨price', hp', hq', hdb', hr⟩ :=
      buy_stock_ok_elim ps failAt db u s q now db' r hok
    rw [hp] at hp'
    injection hp' with hp'
    subst hp'
    subst hdb'
    constructor
    · intro hnone
      rw [getPos_applyInsertTxn, getPos_applyBuyPortfolioWrite_self, hnone]
      rfl
    · intro p0 hsome
      rw [getPos_applyInsertTxn, getPos_applyBuyPortfolioWrite_self, hsome]
      rfl
  · exact runBuys_fresh

/-- Witness for C1, at the spec's own example: buy 10@100 then 10@200 on
a fresh position gives quantity 20 and average price 150. -/
theorem C1_buy_upsert_weighted_average_witness :
    ∃ db' pos',
      runBuys 1 "A" [(10, 100), (10, 200)] ⟨[], []⟩ = some db' ∧
      DB.getPos db' (1, "A") = some pos' ∧
      pos'.quantity = 20 ∧ pos'.average_price = 150 := by
  obtain ⟨db', pos', h1, h2, h3, h4⟩ :=
    C1_buy_upsert_weighted_average.2 1 "A" [(10, 100), (10, 200)] ⟨[], []⟩
      (by decide) rfl (by decide)
  refine ⟨db', pos', h1, h2, ?_, ?_⟩
  · rw [h3]; decide
  · rw [h4]
    norm_num [sumQP, sumQ]

/-- C2: For every buy or sell operation, the Position write and the
Transaction insert are all-or-nothing: whatever step of the store
transaction fails, the visible store is either exactly the original
state or exactly the state with both writes applied — a state with one
write and not the other is never the outcome; a successful call has both
writes visible, and a failed call leaves the store unchanged. -/
theorem C2_trade_atomicity :
    (∀ (u : Nat) (s : String) (q : Int) (price : ℚ) (now : Nat)
       (failAt : Option Nat) (db : DB),
       (runTx (buyWrites u s q price now) failAt db = (db, false) ∨
        runTx (buyWrites u s q price now) failAt db
          = (applyInsertTxn (buyTxnRow u s q price now)
               (applyBuyPortfolioWrite u s q price db), true)) ∧
       (runTx (sellWrites u s q price now) failAt db = (db, false) ∨
        runTx (sellWrites u s q price now) failAt db
          = (applyInsertTxn (sellTxnRow u s q price now)
               (applySellPortfolioWrite u s q db), true)))
  ∧ (∀ (ps : String → Option ℚ) (failAt : Option Nat) (db : DB) (u : Nat)
       (s : String) (q : Int) (now : Nat) (db' : DB) (r : TradeResult),
       buy_stock ps failAt db u s q now = .ok (db', r) →
       db' = applyInsertTxn (buyTxnRow u s q r.price now)
               (applyBuyPortfolioWrite u s q r.price db))
  ∧ (∀ (ps : String → Option ℚ) (failAt : Option Nat) (db : DB) (u : Nat)
       (s : String) (q : Int) (now : Nat) (db' : DB) (r : TradeResult),
       sell_stock ps failAt db u s q now = .ok (db', r) →
       db' = applyInsertTxn (sellTxnRow u s q r.price now)
               (applySellPortfolioWrite u s q db))
  ∧ (∀ (ps : String → Option ℚ) (failAt : Option Nat) (db : DB) (u : Nat)
       (s : String) (q : Int) (now : Nat) (e : TradeError),
       buy_stock ps failAt db u s q now = .error e →
       stepDB ps failAt db now (.buy u s q) = db)
  ∧ (∀ (ps : String → Option ℚ) (failAt : Option Nat) (db : DB) (u : Nat)
       (s : String) (q : Int) (now : Nat) (e : TradeError),
       sell_stock ps failAt db u s q now = .error e →
       stepDB ps failAt db now (.sell u s q) = db) := by
  refine ⟨?_, ?_, ?_, ?_, ?_⟩
  · intro u s q price now failAt db
    exact ⟨runTx_two _ _ failAt db, runTx_two _ _ failAt db⟩
  · intro ps failAt db u s q now db' r hok
    obtain ⟨price, hp, hq, hdb', hr⟩ :=
      buy_stock_ok_elim ps failAt db u s q now db' r hok
    subst hr
    exact hdb'
  · intro ps failAt db u s q now db' r hok
    obtain ⟨p, price, hq, hpos, hheld, hp, hdb', hr⟩ :=
      sell_stock_ok_elim ps failAt db u s q now db' r hok
    subst hr
    exact hdb'
  · intro ps failAt db u s q now e herr
    simp [stepDB, herr]
  · intro ps failAt db u s q now e herr
    simp [stepDB, herr]

/-- Witness for C2: a buy with an invalid quantity fails and leaves the
store unchanged. -/
theorem C2_trade_atomicity_witness :
    stepDB (fun _ => some 100) none ⟨[], []⟩ 0 (.buy 1 "A" 0) = ⟨[], []⟩ :=
  C2_trade_atomicity.2.2.2.1 (fun _ => some 100) none ⟨[], []⟩ 1 "A" 0 0
    .InvalidQuantity rfl

/-- C3: starting from any store whose position quantities are all
nonnegative (and which satisfies the schema's UNIQUE(user_id, symbol)
constraint), any single engine operation — buy, sell, or any of the
reads — leaves every position quantity nonnegative, whether the
operation succeeds or fails. -/
theorem C3_nonneg_quantity_invariant (ps : String → Option ℚ)
    (failAt : Option Nat) (db : DB) (now : Nat) (op : Op)
    (hnd : uniqueKeys db) (h : nonnegQuantities db) :
    nonnegQuantities (stepDB ps failAt db now op) := by
  cases op with
  | buy u s q =>
    simp only [stepDB]
    cases hres : buy_stock ps failAt db u s q now with
    | error e => exact h
    | ok res =>
      obtain ⟨db', r⟩ := res
      obtain ⟨price, hp, hq, hdb', hr⟩ :=
        buy_stock_ok_elim ps failAt db u s q now db' r hres
      subst hdb'
      intro row hrow
      exact nonneg_upsertBuy db.portfolio (u, s) q price hq h row hrow
  | sell u s q =>
    simp only [stepDB]
    cases hres : sell_stock ps failAt db u s q now with
    | error e => exact h
    | ok res =>
      obtain ⟨db', r⟩ := res
      obtain ⟨p, price, hq, hpos, hheld, hp, hdb', hr⟩ :=
        sell_stock_ok_elim ps failAt db u s q now db' r hres
      subst hdb'
      intro row hrow
      exact nonneg_updateSellQty db.portfolio (u, s) q hnd p hpos hheld h
        row hrow
  | portfolioOf u => exact h
  | historyOf u => exact h
  | infoOf s => exact h

/-- Witness for C3: a concrete sell keeps the quantity nonnegative. -/
theorem C3_nonneg_quantity_invariant_witness :
    nonnegQuantities
      (stepDB (fun _ => some 100) none
        ⟨[((1, "A"), ⟨5, 100⟩)], []⟩ 7 (.sell 1 "A" 3)) :=
  C3_nonneg_quantity_invariant (fun _ => some 100) none
    ⟨[((1, "A"), ⟨5, 100⟩)], []⟩ 7 (.sell 1 "A" 3) (by decide) (by decide)

/-- C4: the claim asserts that the sufficiency check and the decrement
are one atomic unit, so no interleaving of concurrent sells can
oversell.  The code refutes this: the check is a stand-alone query and
the UPDATE decrements unconditionally.  Under the interleaving
check₁ · check₂ · write₁ · write₂ on a position holding 5 shares, two
sells of 5 each both pass the check and both commit, the total sold (10)
exceeds the held quantity (5), and the stored quantity ends at −5. -/
theorem C4_sell_race_oversell :
    (twoSellsRace ⟨[((1, "AAPL"), ⟨5, 100⟩)], []⟩ 1 "AAPL" 5 5 100).2.1
        = true
  ∧ (twoSellsRace ⟨[((1, "AAPL"), ⟨5, 100⟩)], []⟩ 1 "AAPL" 5 5 100).2.2
        = true
  ∧ (twoSellsRace ⟨[((1, "AAPL"), ⟨5, 100⟩)], []⟩ 1 "AAPL" 5 5 100).1.getPos
        (1, "AAPL") = some ⟨-5, 100⟩
  ∧ ¬ nonnegQuantities
        (twoSellsRace ⟨[((1, "AAPL"), ⟨5, 100⟩)], []⟩ 1 "AAPL" 5 5 100).1 := by
  refine ⟨rfl, rfl, rfl, ?_⟩
  decide

/-- C5: `sell(user_id, symbol, quantity)` with positive quantity fails
with InsufficientShares exactly when no position row exists for
`(user_id, symbol)` or the held quantity is strictly less than the
requested quantity; on that failure the position is unchanged and no
transaction row is inserted. -/
theorem C5_sell_insufficient_shares (ps : String → Option ℚ)
    (failAt : Option Nat) (db : DB) (u : Nat) (s : String) (q : Int)
    (now : Nat) (hq : 0 < q) :
    (sell_stock ps failAt db u s q now = .error .InsufficientShares ↔
       ∀ p, db.getPos (u, s) = some p → p.quantity < q)
  ∧ (sell_stock ps failAt db u s q now = .error .InsufficientShares →
       stepDB ps failAt db now (.sell u s q) = db) := by
  constructor
  · unfold sell_stock
    rw [if_neg (by omega)]
    cases hpos : db.getPos (u, s) with
    | none =>
      constructor
      · intro _ p hp
        exact absurd hp (by simp)
      · intro _
        rfl
    | some p =>
      dsimp only
      by_cases hlt : p.quantity < q
      · rw [if_pos hlt]
        constructor
        · intro _ p' hp'
          injection hp' with hpe
          subst hpe
          exact hlt
        · intro _
          rfl
      · rw [if_neg hlt]
        constructor
        · intro habs
          cases hps : ps s with
          | none =>
            rw [hps] at habs
            simp at habs
          | some price =>
            rw [hps] at habs
            simp only [sellWrites] at habs
            rcases runTx_two (applySellPortfolioWrite u s q)
                (applyInsertTxn (sellTxnRow u s q price now)) failAt db with
              heq | heq
            · rw [heq] at habs
              simp at habs
            · rw [heq] at habs
              simp at habs
        · intro hall
          exact absurd (hall p rfl) hlt
  · intro herr
    simp [stepDB, herr]

/-- Witness for C5, at the spec's own scenario: a position of 5 shares,
selling 10 fails with InsufficientShares. -/
theorem C5_sell_insufficient_shares_witness :
    sell_stock (fun _ => some 100) none ⟨[((1, "A"), ⟨5, 100⟩)], []⟩
      1 "A" 10 0 = .error .InsufficientShares := by
  refine (C5_sell_insufficient_shares (fun _ => some 100) none
      ⟨[((1, "A"), ⟨5, 100⟩)], []⟩ 1 "A" 10 0 (by decide)).1.mpr ?_
  intro p hp
  have hp' : some (⟨5, 100⟩ : Pos) = some p := hp
  injection hp' with hpe
  subst hpe
  decide

/-- C6: a successful `sell(user_id, symbol, quantity)` changes only the
quantity field of the `(user_id, symbol)` position, decrementing it by
the sold quantity; the position's `average_price` and every other
position row (of every user) are unchanged by the sell. -/
theorem C6_sell_frame_effect (ps : String → Option ℚ)
    (failAt : Option Nat) (db : DB) (u : Nat) (s : String) (q : Int)
    (now : Nat) (db' : DB) (r : TradeResult) (p : Pos)
    (hpos : db.getPos (u, s) = some p)
    (hok : sell_stock ps failAt db u s q now = .ok (db', r)) :
    db'.getPos (u, s) = some ⟨p.quantity - q, p.average_price⟩
  ∧ ∀ k, k ≠ (u, s) → db'.getPos k = db.getPos k := by
  obtain ⟨p', price, hq, hpos', hheld, hps, hdb', hr⟩ :=
    sell_stock_ok_elim ps failAt db u s q now db' r hok
  rw [hpos] at hpos'
  injection hpos' with hpe
  subst hpe
  subst hdb'
  constructor
  · rw [getPos_applyInsertTxn, getPos_applySellPortfolioWrite_self, hpos]
    rfl
  · intro k hk
    rw [getPos_applyInsertTxn]
    exact lookupPos_updateSellQty_other db.portfolio (u, s) k q hk

/-- Witness for C6: sell 2 of 5 held at average 100 — quantity drops to
3, the average price stays 100, and other keys are untouched. -/
theorem C6_sell_frame_effect_witness :
    DB.getPos ⟨[((1, "A"), ⟨3, 100⟩)], [⟨1, 1, "A", 2, 100, "SELL", 9⟩]⟩
        (1, "A") = some ⟨3, 100⟩
  ∧ ∀ k, k ≠ ((1 : Nat), "A") →
      DB.getPos ⟨[((1, "A"), ⟨3, 100⟩)], [⟨1, 1, "A", 2, 100, "SELL", 9⟩]⟩ k
        = DB.getPos ⟨[((1, "A"), ⟨5, 100⟩)], []⟩ k := by
  have h := C6_sell_frame_effect (fun _ => some 100) none
      ⟨[((1, "A"), ⟨5, 100⟩)], []⟩ 1 "A" 2 9
      ⟨[((1, "A"), ⟨3, 100⟩)], [⟨1, 1, "A", 2, 100, "SELL", 9⟩]⟩
      ⟨"A", 2, 100, 100 * ((2 : ℤ) : ℚ)⟩ ⟨5, 100⟩ rfl rfl
  exact ⟨h.1, h.2⟩

/-- C7: `get_portfolio(user_id)` considers exactly the user's positions
with quantity > 0; when every price fetch succeeds it returns, for each
such position, `holding_value = quantity * current_price` and
`gain_loss = holding_value - quantity * average_price`, with
`total_value` the sum of all holding values; if the price fetch fails
for any held symbol, the whole call fails and no partial portfolio is
returned. -/
theorem C7_portfolio_valuation (ps : String → Option ℚ) (db : DB)
    (u : Nat) :
    (∀ r : Key × Pos, r ∈ userHoldings db u ↔
       r ∈ db.portfolio ∧ r.1.1 = u ∧ 0 < r.2.quantity)
  ∧ (∀ price : String → ℚ,
       (∀ r ∈ userHoldings db u, ps r.1.2 = some (price r.1.2)) →
       get_portfolio ps db u = .ok
         ⟨(userHoldings db u).map (fun r =>
             ⟨r.1.2, r.2.quantity, r.2.average_price, price r.1.2,
              (r.2.quantity : ℚ) * price r.1.2,
              (r.2.quantity : ℚ) * price r.1.2
                - (r.2.quantity : ℚ) * r.2.average_price⟩),
          ((userHoldings db u).map
             (fun r => (r.2.quantity : ℚ) * price r.1.2)).sum⟩)
  ∧ (∀ r ∈ userHoldings db u, ps r.1.2 = none →
       get_portfolio ps db u = .error .PriceUnavailable) := by
  refine ⟨?_, ?_, ?_⟩
  · intro r
    simp [userHoldings, List.mem_filter, and_assoc]
  · intro price hall
    unfold get_portfolio
    rw [valuateHoldings_all_some ps price _ hall]
  · intro r hm hnone
    unfold get_portfolio
    rw [valuateHoldings_fail ps _ r hm hnone]

/-- Witness for C7: of three rows, only user 1's position with positive
quantity is valued; 5 shares at 100 give a total of 500. -/
theorem C7_portfolio_valuation_witness :
    ∃ pv, get_portfolio (fun _ => some 100)
        ⟨[((1, "A"), ⟨5, 90⟩), ((2, "B"), ⟨3, 50⟩), ((1, "C"), ⟨0, 10⟩)],
         []⟩ 1 = .ok pv
      ∧ pv.total_value = 500 ∧ pv.holdings.length = 1 := by
  have h := (C7_portfolio_valuation (fun _ => some 100)
      ⟨[((1, "A"), ⟨5, 90⟩), ((2, "B"), ⟨3, 50⟩), ((1, "C"), ⟨0, 10⟩)], []⟩
      1).2.1 (fun _ => (100 : ℚ)) (by decide)
  refine ⟨_, h, ?_, ?_⟩
  · show ((userHoldings _ 1).map _).sum = 500
    rw [show userHoldings
        ⟨[((1, "A"), ⟨5, 90⟩), ((2, "B"), ⟨3, 50⟩), ((1, "C"), ⟨0, 10⟩)], []⟩
        1 = [((1, "A"), ⟨5, 90⟩)] from rfl]
    norm_num
  · rfl

/-- C8: `get_transaction_history(user_id)` returns every transaction
row of that user, ordered by timestamp descending, and each returned
view carries a derived `total` equal to that transaction's recorded
price times its recorded quantity. -/
theorem C8_history_sorted_complete (db : DB) (u : Nat) :
    (get_transaction_history db u).Perm
        ((userTransactions db u).map toView)
  ∧ List.Pairwise (fun a b => b.timestamp ≤ a.timestamp)
      (get_transaction_history db u)
  ∧ (∀ v ∈ get_transaction_history db u,
       v.total = v.price * (v.quantity : ℚ))
  ∧ (∀ t, t ∈ userTransactions db u ↔
       t ∈ db.transactions ∧ t.user_id = u) := by
  refine ⟨?_, ?_, ?_, ?_⟩
  · exact (sortByTimestampDesc_perm _).map toView
  · exact List.Pairwise.map toView (fun a b h => h)
      (sortByTimestampDesc_pairwise (userTransactions db u))
  · intro v hv
    obtain ⟨t, ht, rfl⟩ := List.mem_map.mp hv
    rfl
  · intro t
    simp [userTransactions, List.mem_filter]

/-- Witness for C8: on a store with three transactions, user 1's
history lists its two rows most recent first, and the head view's
`total` is its price times its quantity. -/
theorem C8_history_sorted_complete_witness :
    (⟨2, "B", 3, 50, "SELL", 5, 50 * ((3 : ℤ) : ℚ)⟩ : TransactionView).total
      = (⟨2, "B", 3, 50, "SELL", 5,
          50 * ((3 : ℤ) : ℚ)⟩ : TransactionView).price
        * (((⟨2, "B", 3, 50, "SELL", 5,
              50 * ((3 : ℤ) : ℚ)⟩ : TransactionView).quantity : ℤ) : ℚ) := by
  refine (C8_history_sorted_complete
      ⟨[], [⟨1, 1, "A", 2, 100, "BUY", 1⟩, ⟨2, 1, "B", 3, 50, "SELL", 5⟩,
            ⟨3, 2, "C", 1, 10, "BUY", 3⟩]⟩ 1).2.2.1 _ ?_
  rw [show get_transaction_history
      ⟨[], [⟨1, 1, "A", 2, 100, "BUY", 1⟩, ⟨2, 1, "B", 3, 50, "SELL", 5⟩,
            ⟨3, 2, "C", 1, 10, "BUY", 3⟩]⟩ 1
    = [⟨2, "B", 3, 50, "SELL", 5, 50 * ((3 : ℤ) : ℚ)⟩,
       ⟨1, "A", 2, 100, "BUY", 1, 100 * ((2 : ℤ) : ℚ)⟩] from rfl]
  exact List.mem_cons_self _ _

/-- C10: in the buy upsert, the divisor `old_quantity + trade_quantity`
of the average-price update is strictly positive whenever the existing
row's quantity is nonnegative and the validated trade quantity is at
least 1, so the division never divides by zero; in particular a buy
into a position row left at quantity 0 by a full sell is well-defined
and sets `average_price` exactly to the new trade's price. -/
theorem C10_buy_divisor_positive :
    (∀ (p : Pos) (q : Int), 0 ≤ p.quantity → 1 ≤ q →
       0 < p.quantity + q ∧ ((p.quantity : ℚ) + (q : ℚ)) ≠ 0)
  ∧ (∀ (a price : ℚ) (q : Int), 0 < q →
       buyPos (some ⟨0, a⟩) q price = ⟨q, price⟩)
  ∧ (∀ (ps : String → Option ℚ) (failAt : Option Nat) (db : DB)
       (u : Nat) (s : String) (q : Int) (now : Nat) (db' : DB)
       (r : TradeResult) (a price : ℚ),
       ps s = some price →
       db.getPos (u, s) = some ⟨0, a⟩ →
       buy_stock ps failAt db u s q now = .ok (db', r) →
       db'.getPos (u, s) = some ⟨q, price⟩) := by
  refine ⟨?_, ?_, ?_⟩
  · intro p q h0 h1
    constructor
    · omega
    · have : (0 : ℚ) < (p.quantity : ℚ) + (q : ℚ) := by
        exact_mod_cast (by omega : (0 : ℤ) < p.quantity + q)
      exact ne_of_gt this
  · intro a price q hq
    exact buyPos_zero a price q hq
  · intro ps failAt db u s q now db' r a price hp hpos hok
    obtain ⟨price', hp', hq', hdb', hr⟩ :=
      buy_stock_ok_elim ps failAt db u s q now db' r hok
    rw [hp] at hp'
    injection hp' with hpe
    subst hpe
    subst hdb'
    rw [getPos_applyInsertTxn, getPos_applyBuyPortfolioWrite_self, hpos,
      buyPos_zero a price q hq']

/-- Witness for C10: buying 5 shares at price 100 into a row left at
quantity 0 (with a stale average of 77) yields the position (5, 100). -/
theorem C10_buy_divisor_positive_witness :
    DB.getPos ⟨[((1, "A"),
        ⟨0 + 5, (77 * ((0 : ℤ) : ℚ) + 100 * ((5 : ℤ) : ℚ)) /
          (((0 : ℤ) : ℚ) + ((5 : ℤ) : ℚ))⟩)],
      [⟨1, 1, "A", 5, 100, "BUY", 3⟩]⟩ (1, "A") = some ⟨5, 100⟩ :=
  C10_buy_divisor_positive.2.2 (fun _ => some 100) none
    ⟨[((1, "A"), ⟨0, 77⟩)], []⟩ 1 "A" 5 3
    ⟨[((1, "A"),
        ⟨0 + 5, (77 * ((0 : ℤ) : ℚ) + 100 * ((5 : ℤ) : ℚ)) /
          (((0 : ℤ) : ℚ) + ((5 : ℤ) : ℚ))⟩)],
      [⟨1, 1, "A", 5, 100, "BUY", 3⟩]⟩
    ⟨"A", 5, 100, 100 * ((5 : ℤ) : ℚ)⟩ 77 100 rfl rfl rfl

end StockTrading
